import Mathlib

/-!
Verification of the `js-functions` utility library (src/js-functions.js).

This file shallowly embeds the JavaScript source into Lean 4:

* JavaScript values are modelled by the inductive type `JSVal`
  (undefined, null, booleans, numbers as `Int` plus an explicit `NaN`,
  strings, plain objects as association lists, and function values
  identified by a tag and — for the zero-argument coercion methods —
  the value they return when called).  Object identity (reference
  equality) is not representable in a tree model, so strict equality on
  two plain objects is modelled as `false` (distinct references);
  function values compare by tag, so that the shared prototype methods
  installed by the source compare equal, as in JavaScript.
* The built-in `parseInt` is embedded as `parseIntJS` (whitespace, an
  optional sign, an optional `0x`/`0X` hexadecimal prefix, then the
  longest run of digits; `none` models `NaN`).
* `JSON.parse` is embedded as a fuel-indexed recursive-descent
  recogniser for the JSON grammar (`jsonRun`), used by `isJSONJS`.
* `String.prototype.replace` with a `g`-flagged literal pattern and a
  string replacement is embedded as `jsReplaceAll`, including the
  `$$`/`$&`/dollar-backquote/dollar-quote substitution patterns of
  GetSubstitution (there are no capture groups in the source's
  patterns, so `$n` stays literal, as in JavaScript).
* Code that can throw a `TypeError` (property access on `null` or
  `undefined`, calling a non-function) returns `Except JSErr`.

Every definition whose name ends in `JS` is translated directly from
the corresponding function of src/js-functions.js; the remaining
definitions are specification-side formulations used to state the
theorems.
-/

/- ================================================================ -/
/- Embedding of the built-in parseInt -/

/-- Whitespace characters skipped by `parseInt` (the ASCII fragment of
the ECMAScript WhiteSpace/LineTerminator sets). -/
def jsIsWs (c : Char) : Bool :=
  c == ' ' || c == '\t' || c == '\n' || c == '\r' || c == '\x0b' || c == '\x0c'

/-- Decimal digit value of a character, if any. -/
def decDigitVal (c : Char) : Option Nat :=
  if '0' ≤ c && c ≤ '9' then some (c.toNat - 48) else none

/-- Hexadecimal digit value of a character, if any. -/
def hexDigitVal (c : Char) : Option Nat :=
  if '0' ≤ c && c ≤ '9' then some (c.toNat - 48)
  else if 'a' ≤ c && c ≤ 'f' then some (c.toNat - 87)
  else if 'A' ≤ c && c ≤ 'F' then some (c.toNat - 55)
  else none

/-- The longest leading run of digits of the given base (10 or 16),
as digit values. -/
def leadingDigits (dv : Char → Option Nat) : List Char → List Nat
  | [] => []
  | c :: rest =>
    match dv c with
    | some d => d :: leadingDigits dv rest
    | none => []

/-- Number of characters consumed by `leadingDigits`. -/
theorem leadingDigits_length (dv : Char → Option Nat) (l : List Char) :
    (leadingDigits dv l).length ≤ l.length := by
  induction l with
  | nil => simp [leadingDigits]
  | cons c rest ih =>
    simp only [leadingDigits]
    cases dv c
    · simp
    · simp; omega

/-- Embedding of the built-in `parseInt(string)` called with no radix:
skip whitespace, read an optional sign, detect an optional `0x`/`0X`
hexadecimal prefix, then read the longest run of digits.  `none`
models the `NaN` result. -/
def parseIntJS (s : String) : Option Int :=
  let t := s.toList.dropWhile jsIsWs
  let (sign, t1) : Int × List Char :=
    match t with
    | '-' :: r => (-1, r)
    | '+' :: r => (1, r)
    | _ => (1, t)
  let (dv, t2) : (Char → Option Nat) × List Char :=
    match t1 with
    | '0' :: c :: r =>
      if c == 'x' || c == 'X' then (hexDigitVal, r) else (decDigitVal, t1)
    | _ => (decDigitVal, t1)
  let base : Nat := match t1 with
    | '0' :: c :: _ => if c == 'x' || c == 'X' then 16 else 10
    | _ => 10
  let ds := leadingDigits dv t2
  if ds.isEmpty then none
  else some (sign * (ds.foldl (fun a d => a * base + d) 0 : Nat))

example : parseIntJS "3xx" = some 3 := by decide
example : parseIntJS "xx" = none := by decide
example : parseIntJS "  -42abc" = some (-42) := by decide
example : parseIntJS "0x1A" = some 26 := by decide
example : parseIntJS "0x" = none := by decide
example : parseIntJS "+" = none := by decide

/-- Embedding of `String.prototype.toInt` (src line 218-220):
`return parseInt(this) ? parseInt(this) : 0;` — the truthiness test on
the parsed number sends both `NaN` and `0` to the `0` branch. -/
def stringToIntJS (s : String) : Int :=
  match parseIntJS s with
  | some v => if v == 0 then 0 else v
  | none => 0

example : stringToIntJS "3xx" = 3 := by decide
example : stringToIntJS "xx" = 0 := by decide

/-- Embedding of `Number.prototype.toInt` (src line 188-190) applied to
an integer-valued number: `parseInt(this)` first converts the receiver
to its decimal string. -/
def numberToIntJS (n : Int) : Option Int :=
  parseIntJS (toString n)

/- ================================================================ -/
/- Embedding of String.prototype.contains (src lines 203-210) -/

/-- Whether `q` occurs as a contiguous substring of `s` (the
`indexOf(q) !== -1` test). -/
def hasSubstr (s q : List Char) : Bool :=
  (List.range (s.length + 1)).any fun k => q.isPrefixOf (s.drop k)

/-- Embedding of `String.prototype.contains`: case-insensitive by
default, lowercasing both operands (ASCII `toLowerCase` fragment). -/
def stringContainsJS (s query : String) (caseSensitive : Bool) : Bool :=
  if caseSensitive then hasSubstr s.toList query.toList
  else hasSubstr (s.toList.map Char.toLower) (query.toList.map Char.toLower)

example : stringContainsJS "One" "oNe" false = true := by decide
example : stringContainsJS "One" "oNe" true = false := by decide
example : stringContainsJS "three" "e" false = true := by decide

/- ================================================================ -/
/- Embedding of JSON.parse as a recogniser (for String.prototype.isJSON) -/

/-- JSON insignificant whitespace. -/
def jsonWs (c : Char) : Bool :=
  c == ' ' || c == '\t' || c == '\n' || c == '\r'

/-- Skip JSON whitespace. -/
def skipJsonWs (s : List Char) : List Char := s.dropWhile jsonWs

/-- Recognise the remainder of a JSON string literal after the opening
quote; returns the input after the closing quote. -/
def jsonStrRest : List Char → Option (List Char)
  | [] => none
  | c :: rest =>
    if c == '"' then some rest
    else if c == '\\' then
      match rest with
      | [] => none
      | e :: rest2 =>
        if e == '"' || e == '\\' || e == '/' || e == 'b' || e == 'f'
            || e == 'n' || e == 'r' || e == 't' then jsonStrRest rest2
        else if e == 'u' then
          match rest2 with
          | a :: b :: c2 :: d :: rest3 =>
            if (hexDigitVal a).isSome && (hexDigitVal b).isSome
                && (hexDigitVal c2).isSome && (hexDigitVal d).isSome
            then jsonStrRest rest3 else none
          | _ => none
        else none
    else if c.toNat < 32 then none
    else jsonStrRest rest

/-- Recognise a JSON number at the front of the input (grammar:
`-? (0 | [1-9][0-9]*) frac? exp?`); returns the rest. -/
def jsonNumRest (s : List Char) : Option (List Char) :=
  let (s1 : List Char) := match s with
    | '-' :: r => r
    | _ => s
  match s1 with
  | [] => none
  | c :: r =>
    if c == '0' then some (afterInt r)
    else if (decDigitVal c).isSome then some (afterInt (r.dropWhile (fun d => (decDigitVal d).isSome)))
    else none
where
  /-- After the integer part: optional fraction then optional exponent. -/
  afterInt (r : List Char) : List Char := afterFrac (fracPart r)
  /-- Consume a well-formed fraction part if present. -/
  fracPart (r : List Char) : List Char :=
    match r with
    | '.' :: d :: r2 =>
      if (decDigitVal d).isSome then r2.dropWhile (fun c => (decDigitVal c).isSome) else r
    | _ => r
  /-- Consume a well-formed exponent part if present. -/
  afterFrac (r : List Char) : List Char :=
    match r with
    | e :: r2 =>
      if e == 'e' || e == 'E' then
        match r2 with
        | '+' :: d :: r3 => if (decDigitVal d).isSome then r3.dropWhile (fun c => (decDigitVal c).isSome) else r
        | '-' :: d :: r3 => if (decDigitVal d).isSome then r3.dropWhile (fun c => (decDigitVal c).isSome) else r
        | d :: r3 => if (decDigitVal d).isSome then r3.dropWhile (fun c => (decDigitVal c).isSome) else r
        | [] => r
      else r
    | [] => r

/-- Parsing modes for the JSON recogniser: a value, the elements of an
array (after `[`), or the members of an object (after the opening
brace). -/
inductive JMode where
  | value
  | elements
  | members

/-- Fuel-indexed recursive-descent recogniser for the JSON grammar of
`JSON.parse`.  Returns the unconsumed input on success.  The fuel only
forces termination; `isJSONJS` supplies more than enough. -/
def jsonRun : Nat → JMode → List Char → Option (List Char)
  | 0, _, _ => none
  | fuel + 1, JMode.value, s =>
    match skipJsonWs s with
    | 't' :: 'r' :: 'u' :: 'e' :: r => some r
    | 'f' :: 'a' :: 'l' :: 's' :: 'e' :: r => some r
    | 'n' :: 'u' :: 'l' :: 'l' :: r => some r
    | '"' :: r => jsonStrRest r
    | '[' :: r =>
      (match skipJsonWs r with
       | ']' :: r2 => some r2
       | _ => jsonRun fuel JMode.elements r)
    | '{' :: r =>
      (match skipJsonWs r with
       | '}' :: r2 => some r2
       | _ => jsonRun fuel JMode.members r)
    | other => jsonNumRest other
  | fuel + 1, JMode.elements, s =>
    match jsonRun fuel JMode.value s with
    | none => none
    | some r =>
      match skipJsonWs r with
      | ',' :: r2 => jsonRun fuel JMode.elements r2
      | ']' :: r2 => some r2
      | _ => none
  | fuel + 1, JMode.members, s =>
    match skipJsonWs s with
    | '"' :: r =>
      (match jsonStrRest r with
       | none => none
       | some r2 =>
         match skipJsonWs r2 with
         | ':' :: r3 =>
           (match jsonRun fuel JMode.value r3 with
            | none => none
            | some r4 =>
              match skipJsonWs r4 with
              | ',' :: r5 => jsonRun fuel JMode.members r5
              | '}' :: r5 => some r5
              | _ => none)
         | _ => none)
    | _ => none

/-- Embedding of the behaviour of `JSON.parse(this)` in boolean form:
`some ()` when parsing succeeds, `none` when it would throw (including
on trailing garbage). -/
def jsParseOkJS (s : String) : Option Unit :=
  match jsonRun (2 * s.length + 4) JMode.value s.toList with
  | some rest => if (skipJsonWs rest).isEmpty then some () else none
  | none => none

/-- Embedding of `String.prototype.isJSON` (src lines 228-236): try to
parse, catch the failure, return the boolean. -/
def isJSONJS (s : String) : Bool :=
  (jsParseOkJS s).isSome

example : isJSONJS "true" = true := by decide
example : isJSONJS "123" = true := by decide
example : isJSONJS "\"x\"" = true := by decide
example : isJSONJS "\x7b\x7d" = true := by decide
example : isJSONJS "[1,2]" = true := by decide
example : isJSONJS "\x7b" = false := by decide
example : isJSONJS "undefined" = false := by decide
example : isJSONJS "false" = true := by decide
example : isJSONJS " \x7b \"a\" : [1, 2.5e3, null] \x7d " = true := by decide
example : isJSONJS "01" = false := by decide
example : isJSONJS "[1,]" = false := by decide

/- ================================================================ -/
/- Embedding of String.prototype.replace (g-flagged literal pattern,
   string replacement) and String.prototype.format (src 245-252) -/

/-- GetSubstitution on the replacement string: `$$` gives a dollar,
`$&` the matched text, dollar-backquote the text before the match,
dollar-quote the text after it; any other `$` stays literal (the
source's patterns have no capture groups).  The boolean mode records
whether a `$` has just been consumed. -/
def expandDollarAux (matched before after : List Char) : Bool → List Char → List Char
  | false, [] => []
  | true, [] => ['$']
  | false, c :: r =>
    if c == '$' then expandDollarAux matched before after true r
    else c :: expandDollarAux matched before after false r
  | true, d :: r =>
    if d == '$' then '$' :: expandDollarAux matched before after false r
    else if d == '&' then matched ++ expandDollarAux matched before after false r
    else if d == Char.ofNat 96 then before ++ expandDollarAux matched before after false r
    else if d == '\'' then after ++ expandDollarAux matched before after false r
    else '$' :: d :: expandDollarAux matched before after false r

/-- GetSubstitution, starting outside any `$` sequence. -/
def expandDollar (matched before after rep : List Char) : List Char :=
  expandDollarAux matched before after false rep

/-- One global-replace scan: `before` is the reversed consumed prefix
(context for the dollar patterns), the `Nat` is fuel (one unit per
consumed character; `jsReplaceAll` supplies `length + 1`). -/
def jsReplaceAllF (pat rep : List Char) : Nat → List Char → List Char → List Char
  | 0, _, s => s
  | _ + 1, _, [] => []
  | fuel + 1, before, c :: s =>
    if pat.isPrefixOf (c :: s) then
      let after := (c :: s).drop pat.length
      expandDollar pat before.reverse after rep ++
        jsReplaceAllF pat rep fuel (pat.reverse ++ before) after
    else
      c :: jsReplaceAllF pat rep fuel (c :: before) s

/-- Embedding of `str.replace(new RegExp(escaped literal, 'g...'), rep)`
for a literal pattern: replace every non-overlapping occurrence,
left to right. -/
def jsReplaceAll (s pat rep : String) : String :=
  (jsReplaceAllF pat.toList rep.toList (s.length + 1) [] s.toList).asString

example : jsReplaceAll "a-a-a" "a" "b" = "b-b-b" := by decide
example : jsReplaceAll "xyx" "y" "$&$&" = "xyyx" := by decide
example : jsReplaceAll "ab" "b" "$1" = "a$1" := by decide

/-- Decimal digit character for a value below 10. -/
def digitChar (n : Nat) : Char := Char.ofNat (48 + n)

/-- Decimal digits of a natural number (most significant first); the
first argument is fuel, always called with at least `n + 1`. -/
def natDigitsAux : Nat → Nat → List Char
  | 0, _ => []
  | fuel + 1, n =>
    if n < 10 then [digitChar n]
    else natDigitsAux fuel (n / 10) ++ [digitChar (n % 10)]

/-- Decimal digits of a natural number, as produced by JavaScript's
number-to-string conversion inside `'\x7b' + i + '\x7d'`. -/
def natDigits (n : Nat) : List Char := natDigitsAux (n + 1) n

/-- The placeholder text for index `i`: `icode(123) ++ digits ++ icode(125)`,
that is an opening brace, the decimal digits of `i`, and a closing
brace. -/
def phChars (i : Nat) : List Char :=
  Char.ofNat 123 :: natDigits i ++ [Char.ofNat 125]

/-- The placeholder for index `i` as a string. -/
def phString (i : Nat) : String := (phChars i).asString

example : phString 0 = "\x7b0\x7d" := by decide
example : phString 12 = "\x7b12\x7d" := by decide

/-- Embedding of `String.prototype.format` (src lines 245-252): for
each argument index `i` in order, globally replace the placeholder
`\x7b i \x7d` in the current string by the `i`-th argument (the `i`
regexp flag is irrelevant for an all-digits pattern). -/
def formatJS (tpl : String) (args : List String) : String :=
  (List.range args.length).foldl
    (fun acc i => jsReplaceAll acc (phString i) (args.getD i "")) tpl

example : formatJS "\x7b0\x7d-\x7b1\x7d" ["a", "b"] = "a-b" := by decide
example : formatJS "\x7b0\x7d-\x7b2\x7d" ["a", "b"] = "a-\x7b2\x7d" := by decide
example : formatJS "\x7b0\x7d" ["\x7b1\x7d", "b"] = "b" := by decide

/- ================================================================ -/
/- The value model -/

/-- A JavaScript value, as used by this library.  Numbers are split
into integer-valued numbers (`vNum`) and the `NaN` produced by a
failed `parseInt` (`vNaN`).  `vObj` is a plain object given by its own
enumerable data fields.  `vFun` is a function value identified by a
tag (two function values are the same object exactly when their tags
coincide; the prototype methods installed by the source carry fixed
tags) together with the value a zero-argument call returns — enough to
model the `toInt`-style coercion methods this library dispatches on. -/
inductive JSVal where
  | vUndefined
  | vNull
  | vBool (b : Bool)
  | vNum (n : Int)
  | vNaN
  | vStr (s : String)
  | vObj (fields : List (String × JSVal))
  | vFun (tag : String) (ret : JSVal)

/-- A thrown JavaScript error (only `TypeError` is reachable in this
library: property access on `null`/`undefined`, or calling a
non-function). -/
inductive JSErr where
  | typeError

/-- Look up an own field of an object (`none` when the field is not
present at all, as opposed to being present with value `undefined`). -/
def lookupField : List (String × JSVal) → String → Option JSVal
  | [], _ => none
  | (k, v) :: rest, key => if k == key then some v else lookupField rest key

/-- The numeric value of a canonical (no sign, no leading zero)
decimal numeral, if the characters form one. -/
def canonNatNumeral (l : List Char) : Option Nat :=
  match l with
  | [] => none
  | c :: rest =>
    if l.all (fun d => (decDigitVal d).isSome) then
      if c == '0' && rest ≠ [] then none
      else some (l.foldl (fun a d => a * 10 + (d.toNat - 48)) 0)
    else none

/-- A canonical array-index string: `key` is the decimal numeral of a
position within the string `s`; yields that character. -/
def strCharAt (s : String) (key : String) : Option Char :=
  match canonNatNumeral key.toList with
  | none => none
  | some n => s.toList.get? n

/-- Result of `Number.prototype.toInt` for a receiver value `v` of
number type: `parseInt(this)` on the number's string form. -/
def numToIntRet (v : JSVal) : JSVal :=
  match v with
  | JSVal.vNum n =>
    (match numberToIntJS n with
     | some m => JSVal.vNum m
     | none => JSVal.vNaN)
  | _ => JSVal.vNaN

/-- Property access `v[key]` for the property names this library reads,
on a non-null, non-undefined receiver.  Own data fields come first;
then the prototype methods that src/js-functions.js itself installs
(`String.prototype.contains/toInt/isJSON/format`,
`Number.prototype.toInt`, `Object.prototype.index`), with the bound
result of the zero-argument coercion methods; strings additionally
expose `length` and their character positions.  Built-in prototype
members not defined by this source file are outside the model and
yield `undefined`. -/
def jsGetProp (v : JSVal) (key : String) : JSVal :=
  match v with
  | JSVal.vObj fields =>
    (match lookupField fields key with
     | some w => w
     | none =>
       if key == "index" then JSVal.vFun "Object.prototype.index" JSVal.vUndefined
       else JSVal.vUndefined)
  | JSVal.vStr s =>
    if key == "length" then JSVal.vNum s.length
    else if key == "contains" then JSVal.vFun "String.prototype.contains" JSVal.vUndefined
    else if key == "toInt" then JSVal.vFun "String.prototype.toInt" (JSVal.vNum (stringToIntJS s))
    else if key == "isJSON" then JSVal.vFun "String.prototype.isJSON" (JSVal.vBool (isJSONJS s))
    else if key == "format" then JSVal.vFun "String.prototype.format" JSVal.vUndefined
    else if key == "index" then JSVal.vFun "Object.prototype.index" JSVal.vUndefined
    else
      (match strCharAt s key with
       | some c => JSVal.vStr (String.singleton c)
       | none => JSVal.vUndefined)
  | JSVal.vNum _ =>
    if key == "toInt" then JSVal.vFun "Number.prototype.toInt" (numToIntRet v)
    else if key == "index" then JSVal.vFun "Object.prototype.index" JSVal.vUndefined
    else JSVal.vUndefined
  | JSVal.vNaN =>
    if key == "toInt" then JSVal.vFun "Number.prototype.toInt" JSVal.vNaN
    else if key == "index" then JSVal.vFun "Object.prototype.index" JSVal.vUndefined
    else JSVal.vUndefined
  | JSVal.vBool _ =>
    if key == "index" then JSVal.vFun "Object.prototype.index" JSVal.vUndefined
    else JSVal.vUndefined
  | JSVal.vFun _ _ =>
    if key == "index" then JSVal.vFun "Object.prototype.index" JSVal.vUndefined
    else JSVal.vUndefined
  | JSVal.vNull => JSVal.vUndefined
  | JSVal.vUndefined => JSVal.vUndefined

/-- The `typeof` operator. -/
def jsTypeof (v : JSVal) : String :=
  match v with
  | JSVal.vUndefined => "undefined"
  | JSVal.vNull => "object"
  | JSVal.vBool _ => "boolean"
  | JSVal.vNum _ => "number"
  | JSVal.vNaN => "number"
  | JSVal.vStr _ => "string"
  | JSVal.vObj _ => "object"
  | JSVal.vFun _ _ => "function"

/-- Truthiness (ToBoolean). -/
def jsTruthy (v : JSVal) : Bool :=
  match v with
  | JSVal.vUndefined => false
  | JSVal.vNull => false
  | JSVal.vBool b => b
  | JSVal.vNum n => n != 0
  | JSVal.vNaN => false
  | JSVal.vStr s => s != ""
  | JSVal.vObj _ => true
  | JSVal.vFun _ _ => true

/-- Strict equality (`===`).  `NaN` is unequal to everything including
itself.  Two plain objects in this tree model are distinct references,
hence unequal; function values are the same object exactly when their
tags coincide. -/
def jsStrictEq (a b : JSVal) : Bool :=
  match a, b with
  | JSVal.vUndefined, JSVal.vUndefined => true
  | JSVal.vNull, JSVal.vNull => true
  | JSVal.vBool x, JSVal.vBool y => x == y
  | JSVal.vNum x, JSVal.vNum y => x == y
  | JSVal.vStr x, JSVal.vStr y => x == y
  | JSVal.vFun t _, JSVal.vFun u _ => t == u
  | _, _ => false

/-- ToString, as used by `parseInt(input)` on a non-string argument. -/
def jsToString (v : JSVal) : String :=
  match v with
  | JSVal.vUndefined => "undefined"
  | JSVal.vNull => "null"
  | JSVal.vBool true => "true"
  | JSVal.vBool false => "false"
  | JSVal.vNum n => toString n
  | JSVal.vNaN => "NaN"
  | JSVal.vStr s => s
  | JSVal.vObj _ => "[object Object]"
  | JSVal.vFun _ _ => "function"

/- ================================================================ -/
/- Embedding of objectIndex (src lines 19-23) -/

/-- Splitting on the dot separator, exactly as `index.split('.')`:
`splitDotAux acc l` where `acc` is the reversed current segment. -/
def splitDotAux : List Char → List Char → List String
  | acc, [] => [acc.reverse.asString]
  | acc, c :: rest =>
    if c == '.' then acc.reverse.asString :: splitDotAux [] rest
    else splitDotAux (c :: acc) rest

/-- `index.split('.')`. -/
def splitDot (index : String) : List String := splitDotAux [] index.toList

/-- Embedding of `objectIndex(object, index)`: split the dotted path
and fold, indexing only truthy intermediate values (`obj ? obj[i] :
undefined`).  This is also `Object.index` and
`Object.prototype.index` (src lines 34 and 47-49). -/
def objectIndexJS (object : JSVal) (index : String) : JSVal :=
  (splitDot index).foldl
    (fun obj i => if jsTruthy obj then jsGetProp obj i else JSVal.vUndefined)
    object

example :
    objectIndexJS (JSVal.vObj [("field", JSVal.vObj [("property", JSVal.vNum 100)])])
      "field.property" = JSVal.vNum 100 := rfl
example :
    objectIndexJS (JSVal.vObj [("field", JSVal.vObj [("property", JSVal.vNum 100)])])
      "field.missing.deeper" = JSVal.vUndefined := rfl

/- ================================================================ -/
/- Embedding of Array.prototype.findIndex / remove / replace
   (src lines 61-76, 86-94, 105-114) -/

/-- The per-element condition of the `forEach` loop in
`Array.prototype.findIndex` (src line 70): the element is of object
type, its identity field is defined, and it strictly equals the
template's identity-field value. -/
def findIndexCond (object : JSVal) (uid : String) (item : JSVal) : Bool :=
  jsTypeof item == "object"
    && !(jsTypeof (objectIndexJS item uid) == "undefined")
    && jsStrictEq (objectIndexJS item uid) (objectIndexJS object uid)

/-- The `forEach` loop of `findIndex`: `found` is the current value of
`foundIndex` (boolean `false` or a number), `idx` the index of the
first remaining element; a matching element overwrites `foundIndex`,
so the last match wins. -/
def findIndexLoop (object : JSVal) (uid : String) :
    JSVal → Nat → List JSVal → JSVal
  | found, _, [] => found
  | found, idx, item :: rest =>
    findIndexLoop object uid
      (if findIndexCond object uid item then JSVal.vNum idx else found)
      (idx + 1) rest

/-- Embedding of `Array.prototype.findIndex(object, uid)` after the
`uid` default has been applied: returns boolean `false` when the
template's identity field is undefined, otherwise the result of the
scan (`false`, or the index of the last match). -/
def findIndexJS (arr : List JSVal) (object : JSVal) (uid : String) : JSVal :=
  if jsTypeof (objectIndexJS object uid) == "undefined" then JSVal.vBool false
  else findIndexLoop object uid (JSVal.vBool false) 0 arr

/-- `ToIntegerOrInfinity` on the `start` argument of `splice`, for the
values this library can pass it (a found index, or boolean `false`
when the buggy `replace` forwards a failed search). -/
def jsSpliceStart (v : JSVal) : Int :=
  match v with
  | JSVal.vNum n => n
  | JSVal.vBool true => 1
  | _ => 0

/-- `arr.splice(start, 1)` — delete one element at the clamped start
index. -/
def spliceDeleteOne (arr : List JSVal) (start : Int) : List JSVal :=
  let len : Int := arr.length
  let s : Nat := (max 0 (min start len)).toNat
  arr.take s ++ arr.drop (s + 1)

/-- `arr.splice(start, 1, x)` — replace one element at the clamped
start index (appends when `start` is past the end). -/
def spliceReplaceOne (arr : List JSVal) (start : Int) (x : JSVal) : List JSVal :=
  let len : Int := arr.length
  let s : Nat := (max 0 (min start len)).toNat
  arr.take s ++ [x] ++ arr.drop (s + 1)

/-- Embedding of `Array.prototype.remove(object, uid)` (src 86-94),
after the `uid` default: the found index is used as the truthiness
test, so index `0` takes the not-found branch; `findIndex` is invoked
a second time for the `splice`.  Returns the reported boolean and the
resulting array. -/
def removeJS (arr : List JSVal) (object : JSVal) (uid : String) :
    Bool × List JSVal :=
  if jsTruthy (findIndexJS arr object uid) then
    (true, spliceDeleteOne arr (jsSpliceStart (findIndexJS arr object uid)))
  else
    (false, arr)

/-- Embedding of `Array.prototype.replace(object, uid)` (src 105-114),
after the `uid` default: the test calls `this.findIndex(object.uid)`
— reading the `uid` *property* of the template and leaving the
identity-field parameter to default to `'id'` — and only a truthy
result leads to the in-place `splice`; otherwise the template is
appended. -/
def replaceJS (arr : List JSVal) (object : JSVal) (uid : String) : List JSVal :=
  if jsTruthy (findIndexJS arr (jsGetProp object "uid") "id") then
    spliceReplaceOne arr (jsSpliceStart (findIndexJS arr object uid)) object
  else
    arr ++ [object]

/- ================================================================ -/
/- Embedding of Array.prototype.containsString (src lines 126-136) -/

/-- Evaluation of `item.contains(query, caseSensitive)` given the
value `member` of the `contains` property: an undefined member skips
the element, a non-function member throws when called,
`String.prototype.contains` on a string runs the real substring check,
and a custom function member returns its modelled call result. -/
def containsCall (query : String) (caseSensitive : Bool)
    (acc : List JSVal) (item member : JSVal) : Except JSErr (List JSVal) :=
  match member with
  | JSVal.vUndefined => Except.ok acc
  | JSVal.vFun tag ret =>
    (match item with
     | JSVal.vStr s =>
       if tag == "String.prototype.contains" then
         Except.ok (if stringContainsJS s query caseSensitive then acc ++ [item] else acc)
       else Except.ok (if jsTruthy ret then acc ++ [item] else acc)
     | _ => Except.ok (if jsTruthy ret then acc ++ [item] else acc))
  | _ => Except.error JSErr.typeError

/-- One step of the `forEach` loop of `containsString`: reading
`item.contains` throws on `null`/`undefined`, then the member is
tested (`typeof`) and called. -/
def containsStep (query : String) (caseSensitive : Bool)
    (acc : List JSVal) (item : JSVal) : Except JSErr (List JSVal) :=
  match item with
  | JSVal.vUndefined => Except.error JSErr.typeError
  | JSVal.vNull => Except.error JSErr.typeError
  | _ => containsCall query caseSensitive acc item (jsGetProp item "contains")

/-- The `forEach` loop of `containsString`, accumulating `itemsFound`. -/
def containsLoop (query : String) (caseSensitive : Bool) :
    List JSVal → List JSVal → Except JSErr (List JSVal)
  | acc, [] => Except.ok acc
  | acc, item :: rest =>
    match containsStep query caseSensitive acc item with
    | Except.error e => Except.error e
    | Except.ok acc2 => containsLoop query caseSensitive acc2 rest

/-- Embedding of `Array.prototype.containsString(query, caseSensitive)`
after the case-sensitivity default (`false`) has been applied. -/
def containsStringJS (arr : List JSVal) (query : String)
    (caseSensitive : Bool) : Except JSErr (List JSVal) :=
  containsLoop query caseSensitive [] arr

example :
    containsStringJS [JSVal.vStr "one", JSVal.vStr "two", JSVal.vStr "three"] "e" false
      = Except.ok [JSVal.vStr "one", JSVal.vStr "three"] := rfl
example :
    containsStringJS [JSVal.vNull] "e" false = Except.error JSErr.typeError := rfl
example :
    containsStringJS [JSVal.vNum 3, JSVal.vStr "xEy"] "e" false
      = Except.ok [JSVal.vStr "xEy"] := rfl

/- ================================================================ -/
/- Embedding of Parse.int (src lines 271-273) -/

/-- The built-in `parseInt(input)` applied to an arbitrary value:
ToString then string parsing. -/
def parseIntValJS (v : JSVal) : JSVal :=
  match parseIntJS (jsToString v) with
  | some n => JSVal.vNum n
  | none => JSVal.vNaN

/-- The `typeof`-guarded call of `Parse.int`, given the value `member`
of the input's `toInt` property: an undefined member falls back to the
generic `parseInt(input)`, a function member returns its modelled call
result, and a defined non-function member throws when called. -/
def dispatchCall (input member : JSVal) : Except JSErr JSVal :=
  match member with
  | JSVal.vUndefined => Except.ok (parseIntValJS input)
  | JSVal.vFun _ ret => Except.ok ret
  | _ => Except.error JSErr.typeError

/-- Embedding of `Parse.int(input)` (src lines 271-273):
`typeof input.toInt !== 'undefined' ? input.toInt() : parseInt(input)`.
Reading `input.toInt` throws on `null`/`undefined`. -/
def parseIntDispatchJS (input : JSVal) : Except JSErr JSVal :=
  match input with
  | JSVal.vUndefined => Except.error JSErr.typeError
  | JSVal.vNull => Except.error JSErr.typeError
  | _ => dispatchCall input (jsGetProp input "toInt")

example : parseIntDispatchJS (JSVal.vStr "3xx") = Except.ok (JSVal.vNum 3) := rfl
example : parseIntDispatchJS (JSVal.vNum 7) = Except.ok (JSVal.vNum 7) := rfl
example : parseIntDispatchJS (JSVal.vBool true) = Except.ok JSVal.vNaN := rfl
example : parseIntDispatchJS JSVal.vNull = Except.error JSErr.typeError := rfl
example :
    parseIntDispatchJS (JSVal.vObj [("toInt", JSVal.vFun "custom" (JSVal.vNum 42))])
      = Except.ok (JSVal.vNum 42) := rfl

/- ================================================================ -/
/- Specification-side definitions -/

/-- Whether a value is a plain object (a traversable mapping). -/
def isObjB (v : JSVal) : Bool :=
  match v with
  | JSVal.vObj _ => true
  | _ => false

/-- Guarded path resolution, one segment at a time (the recursion form
of the fold inside `objectIndexJS`). -/
def guardedResolve : JSVal → List String → JSVal
  | M, [] => M
  | M, k :: rest =>
    guardedResolve (if jsTruthy M then jsGetProp M k else JSVal.vUndefined) rest

/-- Unguarded path resolution: index each segment in left-to-right
order (the "manual indexing" of claim C4). -/
def plainResolve : JSVal → List String → JSVal
  | M, [] => M
  | M, k :: rest => plainResolve (jsGetProp M k) rest

/-- Every intermediate value reached while resolving the segments
(the value before each indexing step) is a plain object. -/
def chainObjs : JSVal → List String → Bool
  | _, [] => true
  | M, k :: rest => isObjB M && chainObjs (jsGetProp M k) rest

/-- The index of the last element at or after position `start`
satisfying the `findIndex` match condition. -/
def lastMatchFrom (object : JSVal) (uid : String) (start : Nat) :
    List JSVal → Option Nat
  | [] => none
  | item :: rest =>
    match lastMatchFrom object uid (start + 1) rest with
    | some j => some j
    | none => if findIndexCond object uid item then some start else none

/-- The index the scan of `findIndex` reports: `none` when the
template's identity field is undefined, otherwise the position of the
last matching element, if any. -/
def lastMatchIndex (arr : List JSVal) (object : JSVal) (uid : String) :
    Option Nat :=
  if jsTypeof (objectIndexJS object uid) == "undefined" then none
  else lastMatchFrom object uid 0 arr

/-- The member value is `undefined` or a function, so the
`typeof`-guarded call pattern cannot throw on it. -/
def memberCallable (m : JSVal) : Bool :=
  match m with
  | JSVal.vUndefined => true
  | JSVal.vFun _ _ => true
  | _ => false

/-- The member value is a function. -/
def memberIsFun (m : JSVal) : Bool :=
  match m with
  | JSVal.vFun _ _ => true
  | _ => false

/-- The modelled result of calling the member value with no use of its
arguments. -/
def memberRet (m : JSVal) : JSVal :=
  match m with
  | JSVal.vFun _ ret => ret
  | _ => JSVal.vUndefined

/-- Whether the modelled call result of the member value is truthy. -/
def memberTruthyRet (m : JSVal) : Bool :=
  match m with
  | JSVal.vFun _ ret => jsTruthy ret
  | _ => false

/-- An element supports the substring-containment check and that check
succeeds (the filter of claim C5): strings run the real check, other
values with a function-valued `contains` member return that call's
modelled result, everything else is excluded. -/
def passesContains (query : String) (caseSensitive : Bool) (item : JSVal) : Bool :=
  match item with
  | JSVal.vStr s => stringContainsJS s query caseSensitive
  | _ => memberTruthyRet (jsGetProp item "contains")

/-- The element can be processed by `containsString` without a thrown
`TypeError`: it is not `null`/`undefined`, and its `contains` member,
when defined, is a function. -/
def containsAccessSafe (item : JSVal) : Bool :=
  match item with
  | JSVal.vUndefined => false
  | JSVal.vNull => false
  | _ => memberCallable (jsGetProp item "contains")

/-- The value exposes its own integer-coercion method (claim C8). -/
def exposesToInt (v : JSVal) : Bool :=
  memberIsFun (jsGetProp v "toInt")

/-- The result of calling the value's own coercion method. -/
def ownToIntResult (v : JSVal) : JSVal :=
  memberRet (jsGetProp v "toInt")

/-- The dispatcher can run on the value without a thrown `TypeError`:
not `null`/`undefined`, and the `toInt` member, when defined, is a
function. -/
def dispatchSafe (v : JSVal) : Bool :=
  match v with
  | JSVal.vUndefined => false
  | JSVal.vNull => false
  | _ => memberCallable (jsGetProp v "toInt")

/- ================================================================ -/
/- Helper lemmas -/

/-- `guardedResolve` over concatenated segment lists. -/
theorem guardedResolve_append (M : JSVal) (a b : List String) :
    guardedResolve M (a ++ b) = guardedResolve (guardedResolve M a) b := by
  induction a generalizing M with
  | nil => rfl
  | cons k rest ih => simp only [List.cons_append, guardedResolve]; exact ih _

/-- Once a resolution step has produced `undefined`, every further
step keeps it. -/
theorem guardedResolve_undefined (l : List String) :
    guardedResolve JSVal.vUndefined l = JSVal.vUndefined := by
  induction l with
  | nil => rfl
  | cons k rest ih => simpa [guardedResolve, jsTruthy] using ih

/-- The fold inside `objectIndexJS` is `guardedResolve`. -/
theorem objectIndexJS_eq_guardedResolve (M : JSVal) (P : String) :
    objectIndexJS M P = guardedResolve M (splitDot P) := by
  unfold objectIndexJS
  generalize splitDot P = l
  induction l generalizing M with
  | nil => rfl
  | cons k rest ih => simp only [List.foldl_cons, guardedResolve]; exact ih _

/-- The `findIndex` scan computes the last matching index. -/
theorem findIndexLoop_lastMatch (object : JSVal) (uid : String)
    (l : List JSVal) (found : JSVal) (idx : Nat) :
    findIndexLoop object uid found idx l
      = match lastMatchFrom object uid idx l with
        | some j => JSVal.vNum j
        | none => found := by
  induction l generalizing found idx with
  | nil => rfl
  | cons item rest ih =>
    simp only [findIndexLoop, lastMatchFrom, ih]
    cases lastMatchFrom object uid (idx + 1) rest with
    | some j => simp
    | none =>
      by_cases hc : findIndexCond object uid item = true
      · simp [hc]
      · simp [hc]

/-- A safe `contains` member call on a plain-object element includes
the element exactly when the modelled call result is truthy. -/
theorem containsCall_obj_safe (query : String) (caseSensitive : Bool)
    (acc : List JSVal) (fields : List (String × JSVal)) (g : JSVal)
    (h : memberCallable g = true) :
    containsCall query caseSensitive acc (JSVal.vObj fields) g
      = Except.ok (if memberTruthyRet g = true then acc ++ [JSVal.vObj fields] else acc) := by
  cases g with
  | vUndefined => rfl
  | vFun t ret => rfl
  | vNull => exact absurd h (by simp [memberCallable])
  | vBool b => exact absurd h (by simp [memberCallable])
  | vNum n => exact absurd h (by simp [memberCallable])
  | vNaN => exact absurd h (by simp [memberCallable])
  | vStr s2 => exact absurd h (by simp [memberCallable])
  | vObj f2 => exact absurd h (by simp [memberCallable])

/-- A safe `toInt` member call returns the member's modelled result
when the member is a function, and the generic parse otherwise. -/
theorem dispatchCall_obj_safe (fields : List (String × JSVal)) (g : JSVal)
    (h : memberCallable g = true) :
    dispatchCall (JSVal.vObj fields) g
      = Except.ok (if memberIsFun g = true then memberRet g
                   else parseIntValJS (JSVal.vObj fields)) := by
  cases g with
  | vUndefined => rfl
  | vFun t ret => rfl
  | vNull => exact absurd h (by simp [memberCallable])
  | vBool b => exact absurd h (by simp [memberCallable])
  | vNum n => exact absurd h (by simp [memberCallable])
  | vNaN => exact absurd h (by simp [memberCallable])
  | vStr s2 => exact absurd h (by simp [memberCallable])
  | vObj f2 => exact absurd h (by simp [memberCallable])

/-- One safe step of the `containsString` loop is the filter step. -/
theorem containsStep_safe (query : String) (caseSensitive : Bool)
    (acc : List JSVal) (item : JSVal) (h : containsAccessSafe item = true) :
    containsStep query caseSensitive acc item
      = Except.ok (if passesContains query caseSensitive item then acc ++ [item] else acc) := by
  cases item with
  | vUndefined => exact absurd h (by simp [containsAccessSafe])
  | vNull => exact absurd h (by simp [containsAccessSafe])
  | vStr s => rfl
  | vObj fields =>
    simp only [containsAccessSafe] at h
    simp only [containsStep, passesContains]
    exact containsCall_obj_safe query caseSensitive acc fields
      (jsGetProp (JSVal.vObj fields) "contains") h
  | vBool b => rfl
  | vNum n => rfl
  | vNaN => rfl
  | vFun t ret => rfl

/-- The safe `containsString` loop is a filter. -/
theorem containsLoop_safe (query : String) (caseSensitive : Bool)
    (l : List JSVal) (acc : List JSVal)
    (h : l.all containsAccessSafe = true) :
    containsLoop query caseSensitive acc l
      = Except.ok (acc ++ l.filter (passesContains query caseSensitive)) := by
  induction l generalizing acc with
  | nil => simp [containsLoop]
  | cons item rest ih =>
    rw [List.all_cons, Bool.and_eq_true] at h
    simp only [containsLoop, containsStep_safe query caseSensitive acc item h.1]
    rw [ih _ h.2]
    by_cases hp : passesContains query caseSensitive item = true
    · simp [hp, List.filter_cons]
    · simp only [Bool.not_eq_true] at hp
      simp [hp, List.filter_cons]

/- ================================================================ -/
/- Claim theorems -/

/-- C1 (code bug): the upsert `Array.prototype.replace` tests
`this.findIndex(object.uid)` — reading a (normally absent) `uid`
property instead of passing `(object, uid)` — so even when the
template's identity value is present in the array (here at index 0,
witnessed by `findIndexJS` returning index 0), the element is not
overwritten: the template is appended and the length grows, contrary
to the claim's in-place replacement with unchanged length. -/
theorem replace_appends_despite_match :
    findIndexJS [JSVal.vObj [("id", JSVal.vNum 1), ("v", JSVal.vNum 0)]]
        (JSVal.vObj [("id", JSVal.vNum 1), ("v", JSVal.vNum 2)]) "id"
      = JSVal.vNum 0
    ∧ replaceJS [JSVal.vObj [("id", JSVal.vNum 1), ("v", JSVal.vNum 0)]]
        (JSVal.vObj [("id", JSVal.vNum 1), ("v", JSVal.vNum 2)]) "id"
      = [JSVal.vObj [("id", JSVal.vNum 1), ("v", JSVal.vNum 0)],
         JSVal.vObj [("id", JSVal.vNum 1), ("v", JSVal.vNum 2)]] :=
  ⟨rfl, rfl⟩

/-- C2 (counterexample): with two elements bearing the same identity
value, the element at index 0 matches the template, yet `findIndex`
returns index 1 — the last match, not the first. -/
theorem findIndex_returns_last_not_first :
    findIndexCond (JSVal.vObj [("id", JSVal.vNum 1)]) "id"
        (JSVal.vObj [("id", JSVal.vNum 1), ("v", JSVal.vNum 0)]) = true
    ∧ findIndexJS
        [JSVal.vObj [("id", JSVal.vNum 1), ("v", JSVal.vNum 0)],
         JSVal.vObj [("id", JSVal.vNum 1), ("v", JSVal.vNum 1)]]
        (JSVal.vObj [("id", JSVal.vNum 1)]) "id"
      = JSVal.vNum 1
    ∧ JSVal.vNum 1 ≠ JSVal.vNum 0 :=
  ⟨rfl, rfl, by simp⟩

/-- C2 (amended): `findIndex(T, F)` returns boolean `false` when `T`'s
`F`-value is undefined, and otherwise the position of the **last**
element of object type whose defined `F`-value strictly equals `T`'s
`F`-value — in particular it reports a (numeric) index exactly when
such a matching element exists. -/
theorem findIndex_characterisation (arr : List JSVal) (object : JSVal) (uid : String) :
    findIndexJS arr object uid
      = match lastMatchIndex arr object uid with
        | some j => JSVal.vNum j
        | none => JSVal.vBool false := by
  unfold findIndexJS lastMatchIndex
  by_cases h : (jsTypeof (objectIndexJS object uid) == "undefined") = true
  · simp [h]
  · simp only [Bool.not_eq_true] at h
    simp [h, findIndexLoop_lastMatch]

/-- C3 (code bug): a successful search at index 0 is treated as "not
found" by `Array.prototype.remove` — the found index 0 is falsy, so
nothing is removed and `false` is returned, contrary to the claim; at
a non-zero index the removal does work, shortening by one. -/
theorem remove_treats_index_zero_as_not_found :
    findIndexJS [JSVal.vObj [("id", JSVal.vNum 7)]]
        (JSVal.vObj [("id", JSVal.vNum 7)]) "id" = JSVal.vNum 0
    ∧ removeJS [JSVal.vObj [("id", JSVal.vNum 7)]]
        (JSVal.vObj [("id", JSVal.vNum 7)]) "id"
      = (false, [JSVal.vObj [("id", JSVal.vNum 7)]])
    ∧ removeJS [JSVal.vObj [("id", JSVal.vNum 3)], JSVal.vObj [("id", JSVal.vNum 7)]]
        (JSVal.vObj [("id", JSVal.vNum 7)]) "id"
      = (true, [JSVal.vObj [("id", JSVal.vNum 3)]]) :=
  ⟨rfl, rfl, rfl⟩

/-- C4: when every intermediate value along the dotted path is a plain
mapping, `objectIndex` equals the unguarded left-to-right indexing of
each segment; and whenever the resolution of some leading group of
segments has already produced `undefined`, the overall result is the
`undefined` sentinel (no error is possible: the embedding is total). -/
theorem objectIndex_resolution (M : JSVal) (P : String) :
    (chainObjs M (splitDot P) = true →
      objectIndexJS M P = plainResolve M (splitDot P))
    ∧ (∀ pre suf : List String, splitDot P = pre ++ suf →
        guardedResolve M pre = JSVal.vUndefined →
        objectIndexJS M P = JSVal.vUndefined) := by
  constructor
  · intro h
    rw [objectIndexJS_eq_guardedResolve]
    generalize hl : splitDot P = l at h
    clear hl
    induction l generalizing M with
    | nil => rfl
    | cons k rest ih =>
      rw [chainObjs, Bool.and_eq_true] at h
      obtain ⟨h1, h2⟩ := h
      have hM : jsTruthy M = true := by
        cases M <;> simp_all [isObjB, jsTruthy]
      simp only [guardedResolve, plainResolve, hM, if_true]
      exact ih _ h2
  · intro pre suf hsplit hpre
    rw [objectIndexJS_eq_guardedResolve, hsplit, guardedResolve_append, hpre,
      guardedResolve_undefined]

/-- Witness for C4: a two-segment chain of mappings resolves to the
nested value, and a path whose first segment is missing resolves to
`undefined`. -/
theorem objectIndex_resolution_witness :
    objectIndexJS (JSVal.vObj [("field", JSVal.vObj [("property", JSVal.vNum 100)])])
        "field.property" = JSVal.vNum 100
    ∧ objectIndexJS (JSVal.vObj []) "a.b" = JSVal.vUndefined := by
  constructor
  · exact ((objectIndex_resolution
      (JSVal.vObj [("field", JSVal.vObj [("property", JSVal.vNum 100)])])
      "field.property").1 rfl).trans rfl
  · exact (objectIndex_resolution (JSVal.vObj []) "a.b").2 ["a"] ["b"] rfl rfl

/-- C5 (counterexample): a `null` element does not lack the capability
silently — reading `null.contains` throws a `TypeError`, so the claim's
"never causes an error" fails (the result is not the successful empty
filter the claim demands). -/
theorem containsString_throws_on_null :
    containsStringJS [JSVal.vNull] "x" false = Except.error JSErr.typeError
    ∧ containsStringJS [JSVal.vNull] "x" false ≠ Except.ok [] :=
  ⟨rfl, fun h => by cases (rfl :
      containsStringJS [JSVal.vNull] "x" false = Except.error JSErr.typeError).symm.trans h⟩

/-- C5 (amended): over arrays whose elements are neither `null` nor
`undefined` and whose `contains` member, when defined, is a function,
`containsString` returns (without error) exactly the subsequence of
elements that support the substring-containment check and pass it;
elements lacking the capability are silently excluded. -/
theorem containsString_filters (arr : List JSVal) (query : String)
    (caseSensitive : Bool) (h : arr.all containsAccessSafe = true) :
    containsStringJS arr query caseSensitive
      = Except.ok (arr.filter (passesContains query caseSensitive)) := by
  unfold containsStringJS
  simpa using containsLoop_safe query caseSensitive arr [] h

/-- Witness for C5: a mixed array of strings and a number filters down
to the strings containing the query, case-insensitively. -/
theorem containsString_filters_witness :
    ([JSVal.vStr "one", JSVal.vNum 5, JSVal.vStr "three"].all containsAccessSafe) = true
    ∧ containsStringJS [JSVal.vStr "one", JSVal.vNum 5, JSVal.vStr "three"] "e" false
      = Except.ok [JSVal.vStr "one", JSVal.vStr "three"] :=
  ⟨rfl, (containsString_filters
      [JSVal.vStr "one", JSVal.vNum 5, JSVal.vStr "three"] "e" false rfl).trans rfl⟩

/-- C7: `String.prototype.toInt` returns the value parsed from the
longest valid leading numeric prefix (the `parseInt` result) whenever
one exists — the falsy-zero detour returns the same value 0 — and
returns 0, not a `NaN` marker, when no prefix parses; `"3xx"` gives 3
and `"xx"` gives 0. -/
theorem string_toInt_prefix_value :
    (∀ s : String, stringToIntJS s = (parseIntJS s).getD 0)
    ∧ stringToIntJS "3xx" = 3 ∧ stringToIntJS "xx" = 0 := by
  refine ⟨fun s => ?_, by decide, by decide⟩
  unfold stringToIntJS
  cases h : parseIntJS s with
  | none => rfl
  | some v =>
    simp only [Option.getD_some]
    by_cases hv : v = 0
    · simp [hv]
    · simp [hv]

/-- C8 (counterexample): `Parse.int(null)` throws a `TypeError` while
reading `null.toInt`, instead of returning the generic parse of
`null` (`NaN`) as the claim requires for a value with no coercion
method. -/
theorem parse_int_throws_on_null :
    parseIntDispatchJS JSVal.vNull = Except.error JSErr.typeError
    ∧ parseIntDispatchJS JSVal.vNull ≠ Except.ok (parseIntValJS JSVal.vNull) :=
  ⟨rfl, fun h => by cases (rfl :
      parseIntDispatchJS JSVal.vNull = Except.error JSErr.typeError).symm.trans h⟩

/-- C8 (amended): for every input that is not `null`/`undefined` and
whose `toInt` member, when defined, is a function, `Parse.int` returns
the result of the input's own coercion method when it exposes one
(never the generic parse in that case), and the generic
leading-numeric-prefix parse of the input otherwise. -/
theorem parse_int_dispatch (v : JSVal) (h : dispatchSafe v = true) :
    parseIntDispatchJS v
      = Except.ok (if exposesToInt v = true then ownToIntResult v else parseIntValJS v) := by
  cases v with
  | vUndefined => exact absurd h (by simp [dispatchSafe])
  | vNull => exact absurd h (by simp [dispatchSafe])
  | vObj fields =>
    simp only [dispatchSafe] at h
    simp only [parseIntDispatchJS, exposesToInt, ownToIntResult]
    exact dispatchCall_obj_safe fields (jsGetProp (JSVal.vObj fields) "toInt") h
  | vStr s => rfl
  | vBool b => rfl
  | vNum n => rfl
  | vNaN => rfl
  | vFun t ret => rfl

/-- Witness for C8: a string input defers to `String.prototype.toInt`
(3 for `"3xx"`), and a custom object exposing `toInt` defers to it. -/
theorem parse_int_dispatch_witness :
    dispatchSafe (JSVal.vStr "3xx") = true
    ∧ parseIntDispatchJS (JSVal.vStr "3xx") = Except.ok (JSVal.vNum 3)
    ∧ parseIntDispatchJS (JSVal.vObj [("toInt", JSVal.vFun "custom" (JSVal.vNum 42))])
      = Except.ok (JSVal.vNum 42) :=
  ⟨rfl, (parse_int_dispatch (JSVal.vStr "3xx") rfl).trans rfl,
    (parse_int_dispatch (JSVal.vObj [("toInt", JSVal.vFun "custom" (JSVal.vNum 42))]) rfl).trans rfl⟩

/-- C9: `isJSON` reports validity exactly as JSON decoding does,
converting the decode failure into a boolean: the literal tokens,
numeric literals, quoted strings, objects and arrays report valid,
while a lone opening brace and `undefined` report invalid. -/
theorem isJSON_validity :
    isJSONJS "true" = true ∧ isJSONJS "123" = true ∧ isJSONJS "\"x\"" = true
    ∧ isJSONJS "\x7b\x7d" = true ∧ isJSONJS "[1,2]" = true
    ∧ isJSONJS "\x7b" = false ∧ isJSONJS "undefined" = false :=
  ⟨rfl, rfl, rfl, rfl, rfl, rfl, rfl⟩

/- ================================================================ -/
/- Analysis of the format substitution (claim C10) -/

/-- The replacement text contains no dollar sign, so GetSubstitution
leaves it unchanged. -/
def noDollar (rep : List Char) : Bool := rep.all (fun c => c != '$')

/-- Unfolding `List.isPrefixOf` on two conses. -/
theorem isPrefixOf_cons_cons (a b : Char) (l1 l2 : List Char) :
    (a :: l1).isPrefixOf (b :: l2) = ((a == b) && l1.isPrefixOf l2) := rfl

/-- A list is a (boolean) prefix of itself followed by anything. -/
theorem isPrefixOf_self_append (l r : List Char) :
    l.isPrefixOf (l ++ r) = true := by
  induction l with
  | nil => cases r <;> rfl
  | cons c l ih => simp [isPrefixOf_cons_cons, ih]

/-- Dollar-free replacements are returned verbatim by
`expandDollar`. -/
theorem expandDollar_of_noDollar (matched before after rep : List Char)
    (h : noDollar rep = true) :
    expandDollar matched before after rep = rep := by
  unfold expandDollar
  induction rep with
  | nil => rfl
  | cons c r ih =>
    rw [noDollar, List.all_cons, Bool.and_eq_true] at h
    have hc : ¬((c == '$') = true) := by simpa using h.1
    simp only [expandDollarAux]
    rw [if_neg hc]
    exact congrArg (c :: ·) (ih h.2)

/-- With a dollar-free replacement the consumed-prefix context is
irrelevant to the scan. -/
theorem jsReplaceAllF_before_irrel (pat rep : List Char) (h : noDollar rep = true) :
    ∀ (fuel : Nat) (b1 b2 s : List Char),
      jsReplaceAllF pat rep fuel b1 s = jsReplaceAllF pat rep fuel b2 s := by
  intro fuel
  induction fuel with
  | zero => intro b1 b2 s; rfl
  | succ f ih =>
    intro b1 b2 s
    cases s with
    | nil => rfl
    | cons c s =>
      simp only [jsReplaceAllF]
      by_cases hp : pat.isPrefixOf (c :: s) = true
      · rw [if_pos hp, if_pos hp,
          expandDollar_of_noDollar _ _ _ _ h, expandDollar_of_noDollar _ _ _ _ h]
        exact congrArg (rep ++ ·) (ih _ _ _)
      · rw [if_neg hp, if_neg hp]
        exact congrArg (c :: ·) (ih _ _ _)

/-- Any two sufficient fuels give the same scan result. -/
theorem jsReplaceAllF_fuel_stable (pat rep : List Char) (hpat : pat ≠ []) :
    ∀ (f1 f2 : Nat) (before s : List Char), s.length ≤ f1 → s.length ≤ f2 →
      jsReplaceAllF pat rep f1 before s = jsReplaceAllF pat rep f2 before s := by
  have hp1 : 1 ≤ pat.length := by
    cases pat with
    | nil => exact absurd rfl hpat
    | cons p pt => simp
  intro f1
  induction f1 with
  | zero =>
    intro f2 before s h1 h2
    have hs : s = [] := List.eq_nil_of_length_eq_zero (Nat.le_zero.mp h1)
    subst hs
    cases f2 <;> rfl
  | succ f ih =>
    intro f2 before s h1 h2
    cases s with
    | nil => cases f2 <;> rfl
    | cons c s =>
      cases f2 with
      | zero => exact absurd h2 (by simp)
      | succ g =>
        simp only [jsReplaceAllF]
        have hdrop : ((c :: s).drop pat.length).length ≤ s.length := by
          rw [List.length_drop]
          simp only [List.length_cons]
          omega
        by_cases hp : pat.isPrefixOf (c :: s) = true
        · rw [if_pos hp, if_pos hp]
          refine congrArg _ (ih g _ _ ?_ ?_)
          · exact le_trans hdrop (by simpa using h1)
          · exact le_trans hdrop (by simpa using h2)
        · rw [if_neg hp, if_neg hp]
          refine congrArg _ (ih g _ _ ?_ ?_)
          · exact Nat.le_of_succ_le_succ (by simpa using h1)
          · exact Nat.le_of_succ_le_succ (by simpa using h2)

/-- The canonical scan: fuel is exactly the input length. -/
def scanRep (pat rep s : List Char) : List Char :=
  jsReplaceAllF pat rep s.length [] s

/-- The scan of the empty input. -/
theorem scanRep_nil (pat rep : List Char) : scanRep pat rep [] = [] := rfl

/-- One step of the canonical scan. -/
theorem scanRep_cons (pat rep : List Char) (c : Char) (s : List Char)
    (hpat : pat ≠ []) (hd : noDollar rep = true) :
    scanRep pat rep (c :: s)
      = if pat.isPrefixOf (c :: s) then
          rep ++ scanRep pat rep ((c :: s).drop pat.length)
        else c :: scanRep pat rep s := by
  have hp1 : 1 ≤ pat.length := by
    cases pat with
    | nil => exact absurd rfl hpat
    | cons p pt => simp
  show jsReplaceAllF pat rep (s.length + 1) [] (c :: s) = _
  simp only [jsReplaceAllF]
  by_cases hp : pat.isPrefixOf (c :: s) = true
  · rw [if_pos hp, if_pos hp, expandDollar_of_noDollar _ _ _ _ hd]
    refine congrArg (rep ++ ·) ?_
    rw [jsReplaceAllF_before_irrel pat rep hd s.length (pat.reverse ++ []) []]
    refine jsReplaceAllF_fuel_stable pat rep hpat s.length _ [] _ ?_ (Nat.le_refl _)
    rw [List.length_drop]
    simp only [List.length_cons]
    omega
  · rw [if_neg hp, if_neg hp]
    exact congrArg (c :: ·) (jsReplaceAllF_before_irrel pat rep hd s.length (c :: []) [] s)

/-- The numeric value of a digit string (most significant first). -/
def digitsVal (l : List Char) : Nat :=
  l.foldl (fun a c => a * 10 + (c.toNat - 48)) 0

/-- All characters are decimal digits. -/
def allDigits (l : List Char) : Bool :=
  l.all (fun c => (decDigitVal c).isSome)

/-- The character of a digit value. -/
theorem digitChar_toNat (d : Nat) (h : d < 10) : (digitChar d).toNat = 48 + d := by
  interval_cases d <;> decide

/-- Digit characters are digits. -/
theorem digitChar_isDigit (d : Nat) (h : d < 10) :
    (decDigitVal (digitChar d)).isSome = true := by
  interval_cases d <;> decide

/-- Appending one digit multiplies the value by ten. -/
theorem digitsVal_append_digit (l : List Char) (c : Char) :
    digitsVal (l ++ [c]) = digitsVal l * 10 + (c.toNat - 48) := by
  unfold digitsVal
  rw [List.foldl_append]
  rfl

/-- `natDigitsAux` writes the decimal digits of its argument. -/
theorem digitsVal_natDigitsAux (fuel n : Nat) (h : n < fuel) :
    digitsVal (natDigitsAux fuel n) = n := by
  induction fuel generalizing n with
  | zero => omega
  | succ f ih =>
    simp only [natDigitsAux]
    by_cases hn : n < 10
    · rw [if_pos hn]
      show digitsVal ([] ++ [digitChar n]) = n
      rw [digitsVal_append_digit, digitChar_toNat n hn]
      simp [digitsVal]
    · rw [if_neg hn]
      rw [digitsVal_append_digit, ih (n / 10) (by omega),
        digitChar_toNat (n % 10) (by omega)]
      omega

/-- `natDigitsAux` produces only digit characters. -/
theorem allDigits_natDigitsAux (fuel n : Nat) (h : n < fuel) :
    allDigits (natDigitsAux fuel n) = true := by
  induction fuel generalizing n with
  | zero => omega
  | succ f ih =>
    simp only [natDigitsAux]
    by_cases hn : n < 10
    · rw [if_pos hn]
      simp [allDigits, digitChar_isDigit n hn]
    · rw [if_neg hn]
      have h1 := ih (n / 10) (by omega)
      simp only [allDigits] at h1 ⊢
      rw [List.all_append, h1]
      simp [digitChar_isDigit (n % 10) (by omega)]

/-- The decimal digit string determines the number. -/
theorem natDigits_inj (m n : Nat) (h : natDigits m = natDigits n) : m = n := by
  have hm := digitsVal_natDigitsAux (m + 1) m (Nat.lt_succ_self m)
  have hn := digitsVal_natDigitsAux (n + 1) n (Nat.lt_succ_self n)
  rw [← hm, ← hn]
  unfold natDigits at h
  rw [h]

/-- The digits of a number. -/
theorem allDigits_natDigits (n : Nat) : allDigits (natDigits n) = true :=
  allDigits_natDigitsAux (n + 1) n (Nat.lt_succ_self n)

/-- A digit character is not an opening brace. -/
theorem digit_ne_obrace (c : Char) (h : (decDigitVal c).isSome = true) :
    (Char.ofNat 123 == c) = false := by
  cases hb : Char.ofNat 123 == c
  · rfl
  · rw [← eq_of_beq hb] at h
    exact absurd h (by decide)

/-- A digit character is not a closing brace. -/
theorem digit_ne_cbrace (c : Char) (h : (decDigitVal c).isSome = true) :
    (Char.ofNat 125 == c) = false := by
  cases hb : Char.ofNat 125 == c
  · rfl
  · rw [← eq_of_beq hb] at h
    exact absurd h (by decide)

/-- Two digit strings each closed by a brace and compared by prefix
must be equal. -/
theorem digits_cbrace_prefix (a : List Char) :
    ∀ (b r : List Char), allDigits a = true → allDigits b = true →
      (a ++ [Char.ofNat 125]).isPrefixOf (b ++ Char.ofNat 125 :: r) = true →
      a = b := by
  induction a with
  | nil =>
    intro b r _ hb hpre
    cases b with
    | nil => rfl
    | cons d b2 =>
      exfalso
      rw [List.nil_append, List.cons_append, isPrefixOf_cons_cons,
        Bool.and_eq_true] at hpre
      rw [allDigits, List.all_cons, Bool.and_eq_true] at hb
      rw [digit_ne_cbrace d hb.1] at hpre
      exact Bool.noConfusion hpre.1
  | cons c a2 ih =>
    intro b r ha hb hpre
    rw [allDigits, List.all_cons, Bool.and_eq_true] at ha
    cases b with
    | nil =>
      exfalso
      rw [List.cons_append, List.nil_append, isPrefixOf_cons_cons,
        Bool.and_eq_true] at hpre
      have hc : c = Char.ofNat 125 := eq_of_beq hpre.1
      rw [hc] at ha
      exact absurd ha.1 (by decide)
    | cons d b2 =>
      rw [allDigits, List.all_cons, Bool.and_eq_true] at hb
      rw [List.cons_append, List.cons_append, isPrefixOf_cons_cons,
        Bool.and_eq_true] at hpre
      have hcd : c = d := eq_of_beq hpre.1
      rw [hcd, ih b2 r ha.2 hb.2 hpre.2]

/-- A placeholder is never a prefix of text beginning with a different
placeholder. -/
theorem ph_not_prefix_of_ne (i j : Nat) (r : List Char) (hne : j ≠ i) :
    (phChars j).isPrefixOf (phChars i ++ r) = false := by
  cases hb : (phChars j).isPrefixOf (phChars i ++ r)
  · rfl
  · exfalso
    apply hne
    apply natDigits_inj
    have h2 : (natDigits j ++ [Char.ofNat 125]).isPrefixOf
        (natDigits i ++ Char.ofNat 125 :: r) = true := by
      simpa [phChars, isPrefixOf_cons_cons, List.append_assoc] using hb
    exact digits_cbrace_prefix (natDigits j) (natDigits i) r
      (allDigits_natDigits j) (allDigits_natDigits i) h2

/-- Dropping the length of a leading block uncovers the rest. -/
theorem drop_len_append (l r : List Char) : (l ++ r).drop l.length = r := by
  induction l with
  | nil => rfl
  | cons c l ih => simp [ih]

/-- A format template as tokens: literal runs (no opening brace) and
placeholders. -/
inductive Tok where
  | lit (s : List Char)
  | ph (i : Nat)

/-- The text of one token. -/
def tokChars : Tok → List Char
  | Tok.lit s => s
  | Tok.ph i => phChars i

/-- The text of a token list. -/
def flatToks : List Tok → List Char
  | [] => []
  | t :: ts => tokChars t ++ flatToks ts

/-- Literal tokens contain no opening brace, so no placeholder can
begin inside them. -/
def wfTok : Tok → Bool
  | Tok.lit s => s.all (fun c => c != Char.ofNat 123)
  | Tok.ph _ => true

/-- All tokens are well-formed. -/
def wfToks (ts : List Tok) : Bool := ts.all wfTok

/-- The effect of one substitution pass on one token. -/
def substTok (j : Nat) (rep : List Char) : Tok → Tok
  | Tok.lit s => Tok.lit s
  | Tok.ph i => if i == j then Tok.lit rep else Tok.ph i

/-- A placeholder has text. -/
theorem phChars_ne_nil (j : Nat) : phChars j ≠ [] := by
  simp [phChars]

/-- A placeholder's text cannot begin at a character other than an
opening brace. -/
theorem ph_not_prefix_of_head (j : Nat) (c : Char) (t : List Char)
    (hc : (Char.ofNat 123 == c) = false) :
    (phChars j).isPrefixOf (c :: t) = false := by
  show (Char.ofNat 123 :: (natDigits j ++ [Char.ofNat 125])).isPrefixOf (c :: t) = false
  rw [isPrefixOf_cons_cons, hc, Bool.false_and]

/-- Scanning a block inside which no occurrence of the pattern starts
copies the block. -/
theorem scanRep_skip_block (pat rep : List Char) (hpat : pat ≠ [])
    (hd : noDollar rep = true) :
    ∀ (b rest : List Char),
      (∀ (x y : List Char), b = x ++ y → y ≠ [] →
        pat.isPrefixOf (y ++ rest) = false) →
      scanRep pat rep (b ++ rest) = b ++ scanRep pat rep rest := by
  intro b
  induction b with
  | nil => intro rest _; rfl
  | cons c b2 ih =>
    intro rest hns
    rw [List.cons_append, scanRep_cons pat rep c (b2 ++ rest) hpat hd]
    have hp : pat.isPrefixOf (c :: (b2 ++ rest)) = false := by
      have h0 := hns [] (c :: b2) rfl (by simp)
      simpa using h0
    rw [if_neg (by simp [hp])]
    refine congrArg (c :: ·) (ih rest ?_)
    intro x y hxy hy
    exact hns (c :: x) y (by rw [hxy, List.cons_append]) hy

/-- Scanning a block that is exactly the pattern substitutes it. -/
theorem scanRep_match_block (pat rep : List Char) (hpat : pat ≠ [])
    (hd : noDollar rep = true) (rest : List Char) :
    scanRep pat rep (pat ++ rest) = rep ++ scanRep pat rep rest := by
  cases hpc : pat with
  | nil => exact absurd hpc hpat
  | cons p pt =>
    rw [List.cons_append, scanRep_cons (p :: pt) rep p (pt ++ rest) (by simp) hd]
    rw [if_pos (by rw [← List.cons_append]; exact isPrefixOf_self_append (p :: pt) rest)]
    rw [show (p :: (pt ++ rest)) = (p :: pt) ++ rest from rfl, drop_len_append]

/-- One global-replace pass over rendered tokens substitutes exactly
the matching placeholder tokens. -/
theorem scanRep_pass (j : Nat) (rep : List Char) (hd : noDollar rep = true) :
    ∀ ts : List Tok, wfToks ts = true →
      scanRep (phChars j) rep (flatToks ts)
        = flatToks (ts.map (substTok j rep)) := by
  intro ts
  induction ts with
  | nil => intro _; rfl
  | cons t rest ih =>
    intro hwf
    rw [wfToks, List.all_cons, Bool.and_eq_true] at hwf
    have ihr := ih hwf.2
    cases t with
    | lit s =>
      rw [show flatToks (Tok.lit s :: rest) = s ++ flatToks rest from rfl]
      rw [scanRep_skip_block (phChars j) rep (phChars_ne_nil j) hd s (flatToks rest) ?_]
      · rw [ihr]; rfl
      · intro x y hxy hy
        cases y with
        | nil => exact absurd rfl hy
        | cons c y2 =>
          have hcmem : c ∈ s := by
            rw [hxy]
            exact List.mem_append_right x (List.mem_cons_self c y2)
          have hcall : (c != Char.ofNat 123) = true := by
            have hall : s.all (fun d => d != Char.ofNat 123) = true := hwf.1
            exact List.all_eq_true.mp hall c hcmem
          have hc : (Char.ofNat 123 == c) = false := by
            have : ¬(c = Char.ofNat 123) := by simpa using hcall
            exact beq_eq_false_iff_ne.mpr (fun h => this h.symm)
          rw [List.cons_append]
          exact ph_not_prefix_of_head j c (y2 ++ flatToks rest) hc
    | ph i =>
      by_cases hij : i = j
      · subst hij
        rw [show flatToks (Tok.ph i :: rest) = phChars i ++ flatToks rest from rfl]
        rw [scanRep_match_block (phChars i) rep (phChars_ne_nil i) hd (flatToks rest)]
        rw [ihr, List.map_cons]
        rw [show substTok i rep (Tok.ph i) = Tok.lit rep by simp [substTok]]
        rfl
      · rw [show flatToks (Tok.ph i :: rest) = phChars i ++ flatToks rest from rfl]
        rw [scanRep_skip_block (phChars j) rep (phChars_ne_nil j) hd (phChars i)
          (flatToks rest) ?_]
        · rw [ihr, List.map_cons]
          rw [show substTok j rep (Tok.ph i) = Tok.ph i by
            simp [substTok]
            intro hcontra
            exact absurd hcontra hij]
          rfl
        · intro x y hxy hy
          cases y with
          | nil => exact absurd rfl hy
          | cons c y2 =>
            cases x with
            | nil =>
              rw [List.nil_append] at hxy
              rw [← hxy]
              exact ph_not_prefix_of_ne i j (flatToks rest) (Ne.symm hij)
            | cons c0 x2 =>
              have hxy2 : Char.ofNat 123 :: (natDigits i ++ [Char.ofNat 125])
                  = c0 :: (x2 ++ (c :: y2)) := hxy
              have htail : natDigits i ++ [Char.ofNat 125] = x2 ++ (c :: y2) :=
                (List.cons.injEq _ _ _ _).mp hxy2 |>.2
              have hcmem : c ∈ natDigits i ++ [Char.ofNat 125] := by
                rw [htail]
                exact List.mem_append_right x2 (List.mem_cons_self c y2)
              have hc : (Char.ofNat 123 == c) = false := by
                rcases List.mem_append.mp hcmem with hdig | hclose
                · exact digit_ne_obrace c
                    (List.all_eq_true.mp (allDigits_natDigits i) c hdig)
                · have : c = Char.ofNat 125 := by simpa using hclose
                  rw [this]
                  decide
              rw [List.cons_append]
              exact ph_not_prefix_of_head j c (y2 ++ flatToks rest) hc

/-- The rendered token list as a string. -/
def strOfToks (ts : List Tok) : String := (flatToks ts).asString

/-- Substitution preserves well-formedness when the replacement has no
opening brace. -/
theorem wfToks_substTok (j : Nat) (rep : List Char) (ts : List Tok)
    (hr : rep.all (fun c => c != Char.ofNat 123) = true)
    (h : wfToks ts = true) :
    wfToks (ts.map (substTok j rep)) = true := by
  induction ts with
  | nil => rfl
  | cons t rest ih =>
    rw [wfToks, List.all_cons, Bool.and_eq_true] at h
    rw [List.map_cons, wfToks, List.all_cons, Bool.and_eq_true]
    refine ⟨?_, ih h.2⟩
    cases t with
    | lit s => exact h.1
    | ph i =>
      by_cases hij : (i == j) = true
      · rw [show substTok j rep (Tok.ph i) = Tok.lit rep by simp [substTok, hij]]
        exact hr
      · rw [show substTok j rep (Tok.ph i) = Tok.ph i by
          simp only [substTok]
          rw [if_neg hij]]
        rfl

/-- `jsReplaceAll` with a nonempty pattern and a dollar-free
replacement is the canonical scan. -/
theorem jsReplaceAll_eq_scanRep (s pat rep : String) (hpat : pat.toList ≠ []) :
    jsReplaceAll s pat rep = (scanRep pat.toList rep.toList s.toList).asString := by
  unfold jsReplaceAll scanRep
  congr 1
  rw [jsReplaceAllF_fuel_stable pat.toList rep.toList hpat (s.length + 1)
    s.toList.length [] s.toList (by exact Nat.le_succ _) (Nat.le_refl _)]

/-- One argument is safe for the simultaneous reading: it contains no
opening brace and no dollar sign. -/
def argSafe (a : String) : Bool :=
  a.toList.all (fun c => c != Char.ofNat 123 && c != '$')

/-- All arguments are safe. -/
def argsSafe (args : List String) : Bool := args.all argSafe

/-- Safe arguments are dollar-free and brace-free. -/
theorem argSafe_split (a : String) (h : argSafe a = true) :
    noDollar a.toList = true
    ∧ a.toList.all (fun c => c != Char.ofNat 123) = true := by
  rw [argSafe, List.all_eq_true] at h
  constructor
  · rw [noDollar, List.all_eq_true]
    intro c hc
    have := h c hc
    rw [Bool.and_eq_true] at this
    exact this.2
  · rw [List.all_eq_true]
    intro c hc
    have := h c hc
    rw [Bool.and_eq_true] at this
    exact this.1

/-- An in-range `getD` is a member. -/
theorem getD_mem_of_lt (l : List String) (j : Nat) (h : j < l.length) :
    l.getD j "" ∈ l := by
  induction l generalizing j with
  | nil => simp at h
  | cons a rest ih =>
    cases j with
    | zero => exact List.mem_cons_self a rest
    | succ j2 =>
      exact List.mem_cons_of_mem a (ih j2 (by simpa using h))

/-- The sequence of substitution passes for argument indices `j`,
`j + 1`, …, `j + k - 1`, applied to a token list. -/
def substRange (args : List String) : Nat → Nat → List Tok → List Tok
  | _, 0, ts => ts
  | j, k + 1, ts =>
    substRange args (j + 1) k (ts.map (substTok j (args.getD j "").toList))

/-- The passes of `format` starting at index `j` act on the token
rendering as `substRange`. -/
theorem format_foldl_range (args : List String) (hargs : argsSafe args = true) :
    ∀ (k j : Nat) (ts : List Tok), wfToks ts = true →
      j + k ≤ args.length →
      (List.range' j k).foldl
          (fun acc i => jsReplaceAll acc (phString i) (args.getD i "")) (strOfToks ts)
        = strOfToks (substRange args j k ts) := by
  intro k
  induction k with
  | zero => intro j ts _ _; rfl
  | succ k ih =>
    intro j ts hwf hjk
    have hr : List.range' j (k + 1) = j :: List.range' (j + 1) k := rfl
    rw [hr, List.foldl_cons]
    have hj : j < args.length := by omega
    have hmem : args.getD j "" ∈ args := getD_mem_of_lt args j hj
    have hsafe : argSafe (args.getD j "") = true := by
      rw [argsSafe, List.all_eq_true] at hargs
      exact hargs _ hmem
    obtain ⟨hnd, hnb⟩ := argSafe_split _ hsafe
    have hstep :
        jsReplaceAll (strOfToks ts) (phString j) (args.getD j "")
          = strOfToks (ts.map (substTok j (args.getD j "").toList)) := by
      rw [jsReplaceAll_eq_scanRep (strOfToks ts) (phString j) (args.getD j "")
        (by show phChars j ≠ []; exact phChars_ne_nil j)]
      show (scanRep (phChars j) (args.getD j "").toList (flatToks ts)).asString = _
      rw [scanRep_pass j (args.getD j "").toList hnd ts hwf]
      rfl
    rw [hstep]
    rw [ih (j + 1) (ts.map (substTok j (args.getD j "").toList))
      (wfToks_substTok j (args.getD j "").toList ts hnb hwf) (by omega)]
    rfl

/-- The simultaneous specification of one token's fate: a placeholder
with a corresponding argument becomes that argument's text, any other
token is left as it is. -/
def specSubstTok (args : List String) : Tok → Tok
  | Tok.lit s => Tok.lit s
  | Tok.ph i => if i < args.length then Tok.lit (args.getD i "").toList else Tok.ph i

/-- The partial simultaneous specification, covering the passes from
index `j` on. -/
def specSubstTokFrom (args : List String) (j : Nat) : Tok → Tok
  | Tok.lit s => Tok.lit s
  | Tok.ph i =>
    if j ≤ i && i < args.length then Tok.lit (args.getD i "").toList else Tok.ph i

/-- Sequential passes compute the simultaneous substitution. -/
theorem substRange_spec (args : List String) :
    ∀ (k j : Nat) (ts : List Tok), j + k = args.length →
      substRange args j k ts = ts.map (specSubstTokFrom args j) := by
  intro k
  induction k with
  | zero =>
    intro j ts hjk
    have hfun : specSubstTokFrom args j = id := by
      funext t
      cases t with
      | lit s => rfl
      | ph i =>
        have hcond : (decide (j ≤ i) && decide (i < args.length)) = false := by
          apply Bool.eq_false_iff.mpr
          intro hcontra
          rw [Bool.and_eq_true, decide_eq_true_iff, decide_eq_true_iff] at hcontra
          omega
        simp only [specSubstTokFrom]
        rw [if_neg (by simp [hcond])]
        rfl
    rw [hfun, List.map_id]
    rfl
  | succ k ih =>
    intro j ts hjk
    show substRange args (j + 1) k (ts.map (substTok j (args.getD j "").toList))
      = ts.map (specSubstTokFrom args j)
    rw [ih (j + 1) _ (by omega), List.map_map]
    have hfun : specSubstTokFrom args (j + 1) ∘ substTok j (args.getD j "").toList
        = specSubstTokFrom args j := by
      funext t
      cases t with
      | lit s => rfl
      | ph i =>
        by_cases hij : (i == j) = true
        · have hije : i = j := by simpa using hij
          subst hije
          show specSubstTokFrom args (i + 1) (substTok i (args.getD i "").toList (Tok.ph i))
            = specSubstTokFrom args i (Tok.ph i)
          rw [show substTok i (args.getD i "").toList (Tok.ph i)
              = Tok.lit (args.getD i "").toList by simp [substTok]]
          show Tok.lit (args.getD i "").toList = specSubstTokFrom args i (Tok.ph i)
          have hcond : (decide (i ≤ i) && decide (i < args.length)) = true := by
            rw [Bool.and_eq_true, decide_eq_true_iff, decide_eq_true_iff]
            omega
          simp only [specSubstTokFrom]
          rw [if_pos hcond]
        · show specSubstTokFrom args (j + 1) (substTok j (args.getD j "").toList (Tok.ph i))
            = specSubstTokFrom args j (Tok.ph i)
          rw [show substTok j (args.getD j "").toList (Tok.ph i) = Tok.ph i by
            simp only [substTok]
            rw [if_neg hij]]
          have hine : ¬(i = j) := by simpa using hij
          simp only [specSubstTokFrom]
          have hiff : (j + 1 ≤ i && i < args.length) = (j ≤ i && i < args.length) := by
            rcases Nat.lt_or_ge i args.length with h1 | h1
            · have e1 : decide (i < args.length) = true := by
                rw [decide_eq_true_iff]; omega
              rw [e1, Bool.and_true, Bool.and_true]
              rcases Nat.lt_or_ge i j with h2 | h2
              · have e2 : decide (j + 1 ≤ i) = false := by
                  rw [decide_eq_false_iff_not]; omega
                have e3 : decide (j ≤ i) = false := by
                  rw [decide_eq_false_iff_not]; omega
                rw [e2, e3]
              · have h3 : j < i := by omega
                have e2 : decide (j + 1 ≤ i) = true := by
                  rw [decide_eq_true_iff]; omega
                have e3 : decide (j ≤ i) = true := by
                  rw [decide_eq_true_iff]; omega
                rw [e2, e3]
            · have e1 : decide (i < args.length) = false := by
                rw [decide_eq_false_iff_not]; omega
              rw [e1, Bool.and_false, Bool.and_false]
          rw [hiff]
    rw [hfun]

/-- From index 0 the partial specification is the full one. -/
theorem specSubstTokFrom_zero (args : List String) :
    specSubstTokFrom args 0 = specSubstTok args := by
  funext t
  cases t with
  | lit s => rfl
  | ph i =>
    simp only [specSubstTokFrom, specSubstTok]
    have hz : (decide (0 ≤ i) && decide (i < args.length)) = decide (i < args.length) := by
      rw [show decide (0 ≤ i) = true by rw [decide_eq_true_iff]; omega, Bool.true_and]
    by_cases h : i < args.length
    · rw [hz, if_pos (show decide (i < args.length) = true by
        rw [decide_eq_true_iff]; exact h), if_pos h]
    · rw [hz, if_neg (show ¬(decide (i < args.length) = true) by simp [h]), if_neg h]

/-- C10 (counterexample): the passes run sequentially, so placeholder
text contributed by an earlier argument is itself substituted by a
later pass: `format("\x7b0\x7d", "\x7b1\x7d", "b")` yields `"b"`,
whereas the claim requires the single `\x7b0\x7d` occurrence to become
the text of argument 0, `"\x7b1\x7d"`. -/
theorem format_substitutes_sequentially :
    formatJS "\x7b0\x7d" ["\x7b1\x7d", "b"] = "b"
    ∧ "b" ≠ "\x7b1\x7d" :=
  ⟨by decide, by decide⟩

/-- C10 (amended): `format` substitutes sequentially by increasing
argument index; on templates made of brace-free literal runs and
placeholders, with arguments whose text contains no opening brace and
no dollar sign, the result is the simultaneous substitution: every
`\x7bi\x7d` occurrence with `i` below the argument count becomes the
`i`-th argument's text (case-insensitivity is vacuous for the
all-digits placeholder patterns), and every placeholder with no
corresponding argument is left unsubstituted. -/
theorem format_simultaneous (ts : List Tok) (args : List String)
    (hwf : wfToks ts = true) (hargs : argsSafe args = true) :
    formatJS (strOfToks ts) args = strOfToks (ts.map (specSubstTok args)) := by
  unfold formatJS
  rw [List.range_eq_range']
  rw [format_foldl_range args hargs args.length 0 ts hwf (by omega)]
  rw [substRange_spec args args.length 0 ts (by omega)]
  rw [specSubstTokFrom_zero]

/-- Witness for C10: both spec examples, obtained from the
simultaneous-substitution theorem at concrete inputs. -/
theorem format_simultaneous_witness :
    wfToks [Tok.ph 0, Tok.lit ['-'], Tok.ph 1] = true
    ∧ argsSafe ["a", "b"] = true
    ∧ formatJS "\x7b0\x7d-\x7b1\x7d" ["a", "b"] = "a-b"
    ∧ formatJS "\x7b0\x7d-\x7b2\x7d" ["a", "b"] = "a-\x7b2\x7d" := by
  refine ⟨by decide, by decide, ?_, ?_⟩
  · have h := format_simultaneous [Tok.ph 0, Tok.lit ['-'], Tok.ph 1] ["a", "b"]
      (by decide) (by decide)
    have e1 : strOfToks [Tok.ph 0, Tok.lit ['-'], Tok.ph 1] = "\x7b0\x7d-\x7b1\x7d" := by
      decide
    have e2 : strOfToks ([Tok.ph 0, Tok.lit ['-'], Tok.ph 1].map
        (specSubstTok ["a", "b"])) = "a-b" := by decide
    rw [← e1, h, e2]
  · have h := format_simultaneous [Tok.ph 0, Tok.lit ['-'], Tok.ph 2] ["a", "b"]
      (by decide) (by decide)
    have e1 : strOfToks [Tok.ph 0, Tok.lit ['-'], Tok.ph 2] = "\x7b0\x7d-\x7b2\x7d" := by
      decide
    have e2 : strOfToks ([Tok.ph 0, Tok.lit ['-'], Tok.ph 2].map
        (specSubstTok ["a", "b"])) = "a-\x7b2\x7d" := by decide
    rw [← e1, h, e2]
